import Mathlib

/-!
A shallow embedding of the Lisp stream subsystem of `src/streams.c` (the
polymorphic stream dispatcher of an embedded Lisp interpreter), together
with theorems checking the natural-language specification against it.

Modelling conventions:
  * Characters travel as unsigned octets (0..255); the C `EOF` sentinel is
    the integer -1.
  * A Lisp string is modelled by the list of its logical bytes; the C-level
    trailing NUL terminator is implicit (reading at offset `length` yields 0).
  * External collaborators that live outside `streams.c` (the buffer
    insertion primitive `insert_string`, `pad_pos`, callable invocation via
    `call_lisp0`/`call_lisp1`, `write_to_process`, the C stdio layer) are
    modelled by explicit oracle parameters collected in `Ext`; one stream
    primitive consumes at most one collaborator result per call.  Conditions
    raised *inside* user callables are outside the model; the `sig` component
    of each result records exactly the `cmd_signal` calls present in
    `streams.c` itself.
  * The GC-inhibit flag save/restore around callable invocations has no
    observable effect in this state model and is not represented.
-/

namespace Jade

/-- Read the byte at offset `i` of a Lisp string with logical content `s`.
Offset `s.length` reads the implicit trailing NUL terminator (0).  Negative
or past-the-terminator offsets are undefined behaviour in the C source and
are modelled as reading 0. -/
def byteAt (s : List Nat) (i : Int) : Nat :=
  if 0 ≤ i then s.getD i.toNat 0 else 0

/-- The C `strlen` on the byte array of a Lisp string: the number of bytes
before the first zero byte. -/
def cStrLen (s : List Nat) : Nat :=
  (s.takeWhile (fun b => b ≠ 0)).length

/-- The `(u_char)` cast applied to a C `int`. -/
def toByte (c : Int) : Nat :=
  (c % 256).toNat

/-- Overwrite the bytes of `l` starting at index `i` with `bs` (the C
`memcpy(l + i, bs, bs.length)`); out-of-range positions are dropped, which
in the C source would be a buffer overrun. -/
def listWrite (l : List Nat) (i : Nat) (bs : List Nat) : List Nat :=
  match bs with
  | [] => l
  | b :: rest => listWrite (l.set i b) (i + 1) rest

/-- A buffer position: the `(row, col)` pair of `make_pos(col, row)`.  Both
components are non-negative in every reachable state. -/
structure Pos where
  row : Nat
  col : Nat
deriving Repr, DecidableEq

/-- One buffer line.  `text` holds the line's bytes; the C field
`ln_Strlen` equals `text.length + 1` (it counts the terminator slot). -/
structure Line where
  text : List Nat
deriving Repr, DecidableEq

/-- The slice of the editor buffer object (`TX`) that the stream code
reads: the line array, the logical end row, the cursor position and the
read-only flag.  The buffer model itself is an external collaborator. -/
structure TX where
  lines : List Line
  logicalEnd : Nat
  cursor : Pos
  readOnly : Bool
deriving Repr, DecidableEq

/-- `tx->tx_Lines[r]`; rows are only accessed below `logicalEnd`, which the
buffer collaborator keeps within the array. -/
def lineAt (tx : TX) (r : Nat) : Line :=
  tx.lines.getD r ⟨[]⟩

/-- Replace the buffer's cursor (the cell `get_tx_cursor_ptr` exposes). -/
def setCursor (tx : TX) (p : Pos) : TX :=
  ⟨tx.lines, tx.logicalEnd, p, tx.readOnly⟩

/-- `pos_getc` of streams.c: read one byte at position `p` of buffer `tx`,
returning the byte (or `none` for EOF) and the advanced position. -/
def pos_getc (tx : TX) (p : Pos) : Option Nat × Pos :=
  if p.row < tx.logicalEnd then
    let ln := lineAt tx p.row
    if ln.text.length ≤ p.col then
      -- col is at (or past) the line terminator slot: ln_Strlen - 1
      if p.row + 1 = tx.logicalEnd then
        (none, ⟨p.row, p.col⟩)          -- ++row hit the end; --row restores it
      else
        (some 10, ⟨p.row + 1, 0⟩)        -- yield the newline
    else
      (some (ln.text.getD p.col 0), ⟨p.row, p.col + 1⟩)
  else
    (none, p)

/-- The `POS_UNGETC` macro: step the position back one byte.  The caller
must have just read successfully, so `col = 0` implies `row > 0`. -/
def pos_ungetc (tx : TX) (p : Pos) : Pos :=
  if p.col = 0 then
    ⟨p.row - 1, (lineAt tx (p.row - 1)).text.length⟩
  else
    ⟨p.row, p.col - 1⟩

/-- Result of invoking a user callable (`call_lisp0` / `call_lisp1`):
a null/nil result, an integer, or some other non-nil value. -/
inductive CallRes where
  | nil
  | int (k : Int)
  | other
deriving Repr, DecidableEq

/-- The conditions `streams.c` itself raises through `cmd_signal`. -/
inductive Sig where
  | invalidStream
  | invalidStreamNonResident
  | invalidStreamProcessInput
deriving Repr, DecidableEq

/-- Oracle results of the external collaborators consumed by one primitive
call: callable invocation results, the `pad_pos`/`insert_string` outcome of
the buffer collaborator, and the `write_to_process` return value. -/
structure Ext where
  call0 : CallRes
  call1 : CallRes
  padOk : Bool
  insertRes : Option Pos
  procRes : Int
deriving Repr, DecidableEq

/-- A default oracle: callables return nil, buffer insertion fails,
process writes report 0. -/
def extDefault : Ext :=
  ⟨CallRes.nil, CallRes.nil, false, none, 0⟩

/-- `pos_putc` of streams.c.  `pad_pos` and `insert_string` are buffer
collaborators outside this subsystem; their combined outcome is taken from
the oracle.  Returns the C result (1 on success, EOF on failure) and the
stored position. -/
def pos_putc (ext : Ext) (tx : TX) (p : Pos) : Int × Pos :=
  if tx.readOnly = false ∧ ext.padOk = true then
    match ext.insertRes with
    | some e => (1, e)
    | none => (-1, p)
  else
    (-1, p)

/-- `pos_puts` of streams.c, with `bl` the byte count to insert; returns
`bl` on success and EOF on failure, plus the stored position. -/
def pos_puts (ext : Ext) (tx : TX) (p : Pos) (bl : Int) : Int × Pos :=
  if tx.readOnly = false ∧ ext.padOk = true then
    match ext.insertRes with
    | some e => (bl, e)
    | none => (-1, p)
  else
    (-1, p)

/-- The `(String . Int)` output accumulator: `alloc` is the allocated byte
array of the payload string (its physical bytes, including terminator and
slack), `slen` its logical length (`STRING_LEN`), `cap` the capacity stored
in the cdr. -/
structure OutAcc where
  alloc : List Nat
  slen : Nat
  cap : Nat
deriving Repr, DecidableEq

/-- The `(String . Int)` branch of `stream_putc`: grow when
`len + 1 >= actuallen` (new capacity `actuallen < 16 ? 32 : 2*actuallen`),
append the byte, keep a trailing zero, bump the length.  `make_string` is
modelled as always succeeding, with the uninitialised tail as zero bytes
(the code never reads it before writing it). -/
def outPutc (a : OutAcc) (c : Int) : OutAcc :=
  let grown :=
    if a.cap ≤ a.slen + 1 then
      let newlen := if a.cap < 16 then 32 else a.cap * 2
      (a.alloc.take a.slen ++ List.replicate (newlen + 1 - a.slen) 0, newlen)
    else
      (a.alloc, a.cap)
  ⟨(grown.1.set a.slen (toByte c)).set (a.slen + 1) 0, a.slen + 1, grown.2⟩

/-- The `(String . Int)` branch of `stream_puts`: bulk append of `bytes`.
Growth uses `newlen = len + bufLen + 1`, raised to
`actuallen < 16 ? 32 : 2*actuallen` when that is larger. -/
def outPuts (a : OutAcc) (bytes : List Nat) : OutAcc :=
  let newlen0 := a.slen + bytes.length + 1
  let grown :=
    if a.cap ≤ newlen0 then
      let tmp := if a.cap < 16 then 32 else a.cap * 2
      let newlen := if newlen0 < tmp then tmp else newlen0
      (a.alloc.take a.slen ++ List.replicate (newlen + 1 - a.slen) 0, newlen)
    else
      (a.alloc, a.cap)
  ⟨(listWrite grown.1 a.slen bytes).set (a.slen + bytes.length) 0,
    a.slen + bytes.length, grown.2⟩

/-- The Lisp values the stream dispatcher distinguishes.

  * `file`: a file object; `bound` is whether a name is attached, `toRead`
    the bytes the OS handle will still deliver, `written` the bytes written
    so far (stdio is an external collaborator, modelled as a byte queue).
  * `mark`, `buffer`, `bufPos`: the three buffer-position variants.
  * `strIn`: the `(Int . String)` input cons (offset is a Lisp integer).
  * `outStr`: the `(String . Int)` output accumulator cons.
  * `bufT`: the `(Buffer . t)` cons.
  * `consLambda`: a cons whose car is the `lambda` symbol (a callable).
  * `consOther`: any other cons (no stream shape).
  * `symT`: the symbol `t` (status-line output).
  * `symCallable`: any other symbol used as a callable stream.
  * `process`: a subprocess object; `written` the bytes sent to its stdin.
  * `other`: a value of any further type tag. -/
inductive LVal where
  | file (bound : Bool) (toRead : List Nat) (written : List Nat)
  | mark (resident : Bool) (tx : TX) (pos : Pos)
  | buffer (tx : TX)
  | strIn (off : Int) (s : List Nat)
  | outStr (acc : OutAcc)
  | bufPos (tx : TX) (pos : Pos)
  | bufT (tx : TX)
  | consLambda
  | consOther
  | symT
  | symCallable
  | process (written : List Nat)
  | other
deriving Repr, DecidableEq

/-- Convert `pos_getc`'s result to the C `int` (EOF = -1). -/
def optToInt : Option Nat → Int
  | none => -1
  | some n => (n : Int)

/-- `stream_getc` of streams.c, dispatching on the (already non-nil) stream
value.  Returns the character read (or -1), the condition `streams.c`
signalled (if any), and the updated stream value. -/
def stream_getc (ext : Ext) (v : LVal) : Int × Option Sig × LVal :=
  match v with
  | .file bound toRead written =>
      if bound then
        match toRead with
        | [] => (-1, none, .file bound [] written)
        | c :: rest => ((c : Int), none, .file bound rest written)
      else
        (-1, none, v)
  | .mark resident tx p =>
      if resident then
        let r := pos_getc tx p
        (optToInt r.1, none, .mark resident tx r.2)
      else
        (-1, some Sig.invalidStreamNonResident, v)
  | .buffer tx =>
      let r := pos_getc tx tx.cursor
      (optToInt r.1, none, .buffer (setCursor tx r.2))
  | .strIn off s =>
      let c := byteAt s off
      if c = 0 then (-1, none, v) else ((c : Int), none, .strIn (off + 1) s)
  | .outStr acc =>
      -- cons whose car is a string: not an input shape, not the lambda
      -- symbol, so the default cons path signals invalid-stream
      (-1, some Sig.invalidStream, .outStr acc)
  | .bufPos tx p =>
      let r := pos_getc tx p
      (optToInt r.1, none, .bufPos tx r.2)
  | .bufT tx =>
      -- cons (Buffer . t): cdr is not a position, car is not lambda
      (-1, some Sig.invalidStream, .bufT tx)
  | .consLambda =>
      (match ext.call0 with
       | .int k => (k, none, .consLambda)
       | _ => (-1, none, .consLambda))
  | .consOther =>
      (-1, some Sig.invalidStream, .consOther)
  | .symT =>
      (match ext.call0 with
       | .int k => (k, none, .symT)
       | _ => (-1, none, .symT))
  | .symCallable =>
      (match ext.call0 with
       | .int k => (k, none, .symCallable)
       | _ => (-1, none, .symCallable))
  | .process w =>
      (-1, some Sig.invalidStreamProcessInput, .process w)
  | .other =>
      (-1, some Sig.invalidStream, .other)

/-- `stream_ungetc` of streams.c.  Returns the C success flag, the
condition signalled by `streams.c` itself (there is none on any path — the
switch has no default case), and the updated stream value.  A cons that
matches neither input shape falls through to the callable invocation, as
does any symbol; the C library `ungetc` fails only when `c` is EOF. -/
def stream_ungetc (ext : Ext) (v : LVal) (c : Int) : Bool × Option Sig × LVal :=
  match v with
  | .file bound toRead written =>
      -- the source calls ungetc without checking the name binding
      if c = -1 then (false, none, .file bound toRead written)
      else (true, none, .file bound (toByte c :: toRead) written)
  | .mark resident tx p =>
      (true, none, .mark resident tx (pos_ungetc tx p))
  | .buffer tx =>
      (true, none, .buffer (setCursor tx (pos_ungetc tx tx.cursor)))
  | .strIn off s =>
      (true, none, .strIn (off - 1) s)
  | .outStr acc =>
      -- car is a string, cdr an int: neither unget shape, so the cons
      -- falls through to the callable invocation
      (decide (ext.call1 ≠ CallRes.nil), none, .outStr acc)
  | .bufPos tx p =>
      (true, none, .bufPos tx (pos_ungetc tx p))
  | .bufT tx =>
      (decide (ext.call1 ≠ CallRes.nil), none, .bufT tx)
  | .consLambda =>
      (decide (ext.call1 ≠ CallRes.nil), none, .consLambda)
  | .consOther =>
      (decide (ext.call1 ≠ CallRes.nil), none, .consOther)
  | .symT =>
      (decide (ext.call1 ≠ CallRes.nil), none, .symT)
  | .symCallable =>
      (decide (ext.call1 ≠ CallRes.nil), none, .symCallable)
  | .process w =>
      (false, none, .process w)       -- no V_Process case: rc stays FALSE
  | .other =>
      (false, none, .other)           -- no default case: rc stays FALSE

/-- `stream_putc` of streams.c.  Returns the C `rc`, the condition
signalled by `streams.c` itself, and the updated stream value.  The
status-line effect of the `t` stream and the stdio/process effects are
external; the byte written is still recorded where the model keeps a
queue. -/
def stream_putc (ext : Ext) (v : LVal) (c : Int) : Int × Option Sig × LVal :=
  match v with
  | .file bound toRead written =>
      if bound then (1, none, .file bound toRead (written ++ [toByte c]))
      else (0, none, v)
  | .mark resident tx p =>
      if resident then
        let r := pos_putc ext tx p
        (r.1, none, .mark resident tx r.2)
      else
        (0, some Sig.invalidStreamNonResident, v)
  | .buffer tx =>
      let r := pos_putc ext tx tx.cursor
      (r.1, none, .buffer (setCursor tx r.2))
  | .strIn off s =>
      -- car is an int, cdr a string: not a writable cons shape, not a
      -- buffer, not lambda: signal invalid-stream
      (0, some Sig.invalidStream, .strIn off s)
  | .outStr acc =>
      (1, none, .outStr (outPutc acc c))
  | .bufPos tx p =>
      let r := pos_putc ext tx p
      (r.1, none, .bufPos tx r.2)
  | .bufT tx =>
      -- write at cmd_restriction_end; the position is a local, so only the
      -- insertion outcome is observable
      let r := pos_putc ext tx ⟨0, 0⟩
      (r.1, none, .bufT tx)
  | .consLambda =>
      (if ext.call1 ≠ CallRes.nil then 1 else 0, none, .consLambda)
  | .consOther =>
      (0, some Sig.invalidStream, .consOther)
  | .symT =>
      -- append to the status-line message buffer (external); rc = 1
      (1, none, .symT)
  | .symCallable =>
      (if ext.call1 ≠ CallRes.nil then 1 else 0, none, .symCallable)
  | .process w =>
      (ext.procRes, none, .process (w ++ [toByte c]))
  | .other =>
      (0, some Sig.invalidStream, .other)

/-- Result of `stream_puts`: the C return count, the condition signalled by
`streams.c` itself, the updated stream value, and — when a callable stream
was invoked — the argument it received: `(byRef, bytes)`, where `byRef`
records whether the existing Lisp string object was passed by reference
(`isValString`) or a fresh string was built by `string_dupn`. -/
structure PutsRes where
  rc : Int
  sig : Option Sig
  strm : LVal
  callArg : Option (Bool × List Nat)
deriving Repr, DecidableEq

/-- `stream_puts` of streams.c.  `data` is the byte array behind the
`void *` argument, `bufLen` the C length argument (`-1` means "use
`STRING_LEN` for a Lisp string, `strlen` otherwise"), `isValString`
whether `data` is an actual Lisp string object. -/
def stream_puts (ext : Ext) (v : LVal) (data : List Nat) (bufLen : Int)
    (isValString : Bool) : PutsRes :=
  let bl : Int :=
    if bufLen = -1 then
      (if isValString then (data.length : Int) else (cStrLen data : Int))
    else bufLen
  let bln := bl.toNat
  match v with
  | .file bound toRead written =>
      if bound then ⟨bl, none, .file bound toRead (written ++ data.take bln), none⟩
      else ⟨0, none, v, none⟩
  | .mark resident tx p =>
      if resident then
        let r := pos_puts ext tx p bl
        ⟨r.1, none, .mark resident tx r.2, none⟩
      else
        ⟨0, some Sig.invalidStreamNonResident, v, none⟩
  | .buffer tx =>
      let r := pos_puts ext tx tx.cursor bl
      ⟨r.1, none, .buffer (setCursor tx r.2), none⟩
  | .strIn off s =>
      ⟨0, some Sig.invalidStream, .strIn off s, none⟩
  | .outStr acc =>
      ⟨bl, none, .outStr (outPuts acc (data.take bln)), none⟩
  | .bufPos tx p =>
      let r := pos_puts ext tx p bl
      ⟨r.1, none, .bufPos tx r.2, none⟩
  | .bufT tx =>
      let r := pos_puts ext tx ⟨0, 0⟩ bl
      ⟨r.1, none, .bufT tx, none⟩
  | .consLambda =>
      let arg := if isValString then (true, data) else (false, data.take bln)
      let rc : Int :=
        match ext.call1 with
        | .nil => 0
        | .int k => k
        | .other => bl
      ⟨rc, none, .consLambda, some arg⟩
  | .consOther =>
      ⟨0, some Sig.invalidStream, .consOther, none⟩
  | .symT =>
      -- status-line bulk append (external); rc = bufLen
      ⟨bl, none, .symT, none⟩
  | .symCallable =>
      let arg := if isValString then (true, data) else (false, data.take bln)
      let rc : Int :=
        match ext.call1 with
        | .nil => 0
        | .int k => k
        | .other => bl
      ⟨rc, none, .symCallable, some arg⟩
  | .process w =>
      ⟨ext.procRes, none, .process (w ++ data.take bln), none⟩
  | .other =>
      ⟨0, some Sig.invalidStream, .other, none⟩

/-- Modelled from the spec: `cmd_symbol_value` lives in `symbols.c`, which
is not part of this tree.  Per spec §4.2, a nil stream argument resolves to
the dynamic value of `standard-input`; if that binding is also nil the
primitive returns EOF without signalling.  `dynIn` is that dynamic value
(`none` = nil). -/
def stream_getc_entry (ext : Ext) (dynIn : Option LVal) (strm : Option LVal) :
    Int × Option Sig × Option LVal :=
  match strm with
  | some s =>
      let r := stream_getc ext s
      (r.1, r.2.1, some r.2.2)
  | none =>
      match dynIn with
      | none => (-1, none, none)
      | some s =>
          let r := stream_getc ext s
          (r.1, r.2.1, some r.2.2)

/-- Modelled from the spec: as `stream_getc_entry`, for `stream_putc` with
`standard-output` (`dynOut`); a nil stream with a nil binding returns 0
without signalling and without effect. -/
def stream_putc_entry (ext : Ext) (dynOut : Option LVal) (strm : Option LVal)
    (c : Int) : Int × Option Sig × Option LVal :=
  match strm with
  | some s =>
      let r := stream_putc ext s c
      (r.1, r.2.1, some r.2.2)
  | none =>
      match dynOut with
      | none => (0, none, none)
      | some s =>
          let r := stream_putc ext s c
          (r.1, r.2.1, some r.2.2)

/-- `cmd_make_string_input_stream`: `(START_or_0 . STRING)`. -/
def mkStringInputStream (s : List Nat) (start : Option Int) : LVal :=
  .strIn (start.getD 0) s

/-- `cmd_make_string_output_stream`: `("" . 0)` — an empty writable string
(one allocated terminator byte) with recorded capacity 0. -/
def mkStringOutputStream : LVal :=
  .outStr ⟨[0], 0, 0⟩

/-- Iterate `stream_getc` `n` times, collecting results. -/
def getcN (ext : Ext) : LVal → Nat → List Int × LVal
  | v, 0 => ([], v)
  | v, n + 1 =>
      let r := stream_getc ext v
      let rest := getcN ext r.2.2 n
      (r.1 :: rest.1, rest.2)

/-- Write a byte list one byte at a time with `stream_putc`, returning the
final stream value. -/
def putcAll (ext : Ext) (v : LVal) (bs : List Nat) : LVal :=
  bs.foldl (fun s b => (stream_putc ext s (b : Int)).2.2) v

/-- The loop of `cmd_copy_stream`, with the source abstracted by the byte
sequence its `stream_getc` calls will deliver (EOF after exhaustion).
`chunk` is the filled prefix of the 512-byte buffer (`ptr - buff`
elements).  When the buffer is full (`ptr - buff >= 511`) the code flushes
it with `stream_puts` and resets `ptr` — the byte just read is never
stored, though `len++` still counts it.  On a failed flush the loop breaks
and the post-loop flush re-sends the same chunk.  The cooperative
interrupt flag (`TEST_INT`/`INT_P`) is modelled as never set. -/
def copyLoop (ext : Ext) (src : List Nat) (dst : LVal) (chunk : List Nat)
    (len : Nat) : Option Nat × LVal :=
  match src with
  | [] =>
      if chunk.isEmpty then
        (if len = 0 then none else some len, dst)
      else
        let r := stream_puts ext dst chunk (chunk.length : Int) false
        (if len = 0 then none else some len, r.strm)
  | c :: rest =>
      if 511 ≤ chunk.length then
        let r := stream_puts ext dst chunk (chunk.length : Int) false
        if r.rc = -1 then
          let r₂ := stream_puts ext r.strm chunk (chunk.length : Int) false
          (if len = 0 then none else some len, r₂.strm)
        else
          copyLoop ext rest r.strm [] (len + 1)
      else
        copyLoop ext rest dst (chunk ++ [c % 256]) (len + 1)

/-- `cmd_copy_stream`, source abstracted as above: returns the count it
reports (`none` is the Lisp nil for zero) and the final destination. -/
def cmd_copy_stream (ext : Ext) (src : List Nat) (dst : LVal) :
    Option Nat × LVal :=
  copyLoop ext src dst [] 0

/-- The DATA argument of the `write` builtin. -/
inductive WData where
  | int (c : Int)
  | str (s : List Nat)
  | otherVal
deriving Repr, DecidableEq

/-- Observable outcome of `cmd_write`: an argument-error signal (with the
offending argument position), a `stream_putc` call, or a `stream_puts`
call (whose result records what a callable stream received). -/
inductive WriteOut where
  | argError (argPos : Nat)
  | putcRes (rc : Int) (sig : Option Sig) (strm : LVal)
  | putsRes (r : PutsRes)
deriving Repr, DecidableEq

/-- `cmd_write` of streams.c: an integer DATA goes through `stream_putc`; a
string with an integer LENGTH is range-checked (`signal_arg_error(len, 3)`
when LENGTH exceeds the string length, before anything is written), passed
as the whole Lisp string object when LENGTH equals the string length, and
as the raw byte pointer otherwise; without an integer LENGTH the whole
string object is passed. -/
def cmd_write (ext : Ext) (strm : LVal) (data : WData) (len : Option Int) :
    WriteOut :=
  match data with
  | .int c =>
      let r := stream_putc ext strm c
      .putcRes r.1 r.2.1 r.2.2
  | .str s =>
      match len with
      | some l =>
          if (s.length : Int) < l then .argError 3
          else if l = (s.length : Int) then .putsRes (stream_puts ext strm s l true)
          else .putsRes (stream_puts ext strm s l false)
      | none => .putsRes (stream_puts ext strm s (s.length : Int) true)
  | .otherVal => .argError 2

/-- A Lisp file object: its bound name (if any), whether an OS handle is
attached, and the don't-close flag bit of its `car`. -/
structure LispFile where
  name : Option (List Nat)
  handle : Bool
  dontClose : Bool
deriving Repr, DecidableEq

/-- An argument to `open`. -/
inductive OpenArg where
  | str (s : List Nat)
  | nilArg
  | fileRef (f : LispFile)
  | otherVal
deriving Repr, DecidableEq

/-- Outcome of `cmd_open`: the file object returned, or the `file-error`
condition `cmd_signal(sym_file_error, list_2(lookup_errno(), name))` with
its two payload elements in order. -/
inductive OpenRes where
  | ok (f : LispFile)
  | fileError (msg : List Nat) (nm : List Nat)
deriving Repr, DecidableEq

/-- `cmd_open` of streams.c.  When the FILE argument is not a file object a
fresh `Lisp_File` is allocated and immediately linked onto `lfile_chain`
(allocation is modelled as always succeeding); a reused file object keeps
its existing chain position (aliasing is not tracked: the returned chain is
unchanged in that case).  The object is then reset to unbound with cleared
flags.  With string NAME and MODES, `fopen` (external, outcome `fopenOk`)
either binds the name or raises `file-error` with the errno message
(`errnoMsg`, external) and the requested name — the freshly linked object
stays on the chain either way. -/
def cmd_open (name modes file : OpenArg) (fopenOk : Bool)
    (errnoMsg : List Nat) (chain : List LispFile) :
    OpenRes × List LispFile :=
  let fresh :=
    match file with
    | .fileRef _ => false
    | _ => true
  let body : OpenRes :=
    match name, modes with
    | .str n, .str m =>
        if fopenOk then .ok ⟨some n, true, false⟩
        else (let _ := m; .fileError errnoMsg n)
    | _, _ => .ok ⟨none, false, false⟩
  let finalFile : LispFile :=
    match body with
    | .ok f => f
    | .fileError _ _ => ⟨none, false, false⟩
  if fresh then (body, finalFile :: chain) else (body, chain)

/-- Which stream variants the claim "unget inverts read" ranges over: the
`(Int . String)` input stream, the buffer, the mark, and `(Buffer . Pos)`. -/
def supportsUnget : LVal → Bool
  | .strIn _ _ => true
  | .buffer _ => true
  | .mark _ _ _ => true
  | .bufPos _ _ => true
  | _ => false

/-- Reading one character from an abstract character source (the sequence
of values `stream_getc` will deliver; exhausted means EOF forever). -/
def srcGetc : List Int → Int × List Int
  | [] => (-1, [])
  | c :: rest => (c, rest)

/-- The C-locale `toupper`, total on `int` (identity outside `a..z`,
including on EOF). -/
def toupperI (c : Int) : Int :=
  if 97 ≤ c ∧ c ≤ 122 then c - 32 else c

/-- The C `isxdigit` on an `int` (which may be EOF). -/
def isxdigitI (d : Int) : Bool :=
  decide ((48 ≤ d ∧ d ≤ 57) ∨ (65 ≤ d ∧ d ≤ 70) ∨ (97 ≤ d ∧ d ≤ 102))

/-- The value of one hex digit as computed by `stream_read_esc`
(`*c_p - '0'`, or `toupper(*c_p) - 'A' + 10`). -/
def hexVal (d : Int) : Nat :=
  if 48 ≤ d ∧ d ≤ 57 then (d - 48).toNat else ((toupperI d) - 65).toNat + 10

/-- The `x` case of `stream_read_esc`: read characters while they are hex
digits, accumulating into the `u_char c` (so modulo 256); the first
non-hex character becomes the reported lookahead. -/
def readEscHexLoop (c : Nat) : List Int → Nat × Int × List Int
  | [] => (c, -1, [])
  | d :: rest =>
      if isxdigitI d then readEscHexLoop ((c * 16 + hexVal d) % 256) rest
      else (c, d, rest)

/-- The common exit of `stream_read_esc`: read one more character as the
new lookahead and return the computed byte. -/
def escFinish (c : Nat) (src : List Int) : Nat × Int × List Int :=
  let r := srcGetc src
  (c, r.1, r.2)

/-- The `^X` control-code computation `(u_char)(toupper(X) ^ 0x40)`.  For
`X = EOF`: `toupper(EOF) = EOF`, `-1 ^ 0x40 = -65`, `(u_char)(-65) = 191`. -/
def ctrlByte (x : Int) : Nat :=
  if x < 0 then 191 else Nat.xor (toupperI x).toNat 64 % 256

/-- `stream_read_esc` of streams.c, with the stream abstracted by the
character sequence `stream_getc` will deliver.  `fc` is the first escape
character (`*c_p` on entry); the result is the decoded byte, the new
lookahead written back through `c_p`, and the rest of the source. -/
def stream_read_esc (src : List Int) (fc : Int) : Nat × Int × List Int :=
  if fc = 110 then escFinish 10 src          -- n
  else if fc = 114 then escFinish 13 src     -- r
  else if fc = 102 then escFinish 12 src     -- f
  else if fc = 116 then escFinish 9 src      -- t
  else if fc = 118 then escFinish 11 src     -- v
  else if fc = 97 then escFinish 7 src       -- a
  else if fc = 94 then                       -- caret
    let r := srcGetc src
    escFinish (ctrlByte r.1) r.2
  else if 48 ≤ fc ∧ fc ≤ 55 then             -- octal, first digit is fc
    let c₀ := (fc - 48).toNat
    let r₁ := srcGetc src
    if 48 ≤ r₁.1 ∧ r₁.1 ≤ 55 then
      let c₁ := (c₀ * 8 + (r₁.1 - 48).toNat) % 256
      let r₂ := srcGetc r₁.2
      if 48 ≤ r₂.1 ∧ r₂.1 ≤ 55 then
        let c₂ := (c₁ * 8 + (r₂.1 - 48).toNat) % 256
        escFinish c₂ r₂.2                    -- break: one more read for lookahead
      else (c₁, r₂.1, r₂.2)                  -- lookahead already consumed
    else (c₀, r₁.1, r₁.2)
  else if fc = 120 then readEscHexLoop 0 src -- x
  else escFinish (toByte fc) src             -- returned as-is

/-- The capacity shape the spec describes for a string output stream:
`max(32, 2^k)`. -/
def capForm (m : Nat) : Prop :=
  ∃ k, m = max 32 (2 ^ k)

/-- Invariant of a string output accumulator that has received the bytes
`P` one at a time since creation: the length is `|P|`, the allocation is
`P` followed by the trailing zero and slack, the allocation size is
`cap + 1`, and the capacity is the power of two reached by doubling from
32 — at least 33 bytes would not fit in half of it (unless it is still
32). -/
def GoodAcc (P : List Nat) (a : OutAcc) : Prop :=
  a.slen = P.length ∧
  (∃ r, a.alloc = P ++ 0 :: r ∧ P.length + 1 + r.length = a.cap + 1) ∧
  (∃ k, a.cap = 2 ^ k ∧ 5 ≤ k) ∧
  P.length < a.cap ∧
  (a.cap = 32 ∨ a.cap ≤ 2 * P.length)

/-! ### Basic lemmas -/

theorem byteAt_len (s : List Nat) : byteAt s (s.length : Int) = 0 := by
  simp [byteAt, List.getD]

theorem byteAt_app (pre : List Nat) (b : Nat) (rest : List Nat) :
    byteAt (pre ++ b :: rest) (pre.length : Int) = b := by
  simp only [byteAt, List.getD, Int.natCast_nonneg, if_true, Int.toNat_natCast]
  rw [List.get?_eq_getElem?, List.getElem?_append_right (Nat.le_refl _)]
  simp

theorem set_app (P : List Nat) (x : Nat) (r : List Nat) (c : Nat) :
    (P ++ x :: r).set P.length c = P ++ c :: r := by
  induction P with
  | nil => rfl
  | cons h t ih => simp [List.set, ih]

/-! ### Claim C4 — default-stream fallback -/

/-- Claim C4: when the stream argument of put-char is nil and the dynamic
value of standard-output is also nil, put-char returns 0, signals nothing
and has no effect; symmetrically get-char with standard-input nil returns
EOF; and with standard-output bound to stream S, put-char on nil behaves
exactly as put-char on S (whatever standard-output holds in the latter
case). -/
theorem claim_C4 :
    (∀ ext c, stream_putc_entry ext none none c = (0, none, none)) ∧
    (∀ ext, stream_getc_entry ext none none = (-1, none, none)) ∧
    (∀ ext d S c,
      stream_putc_entry ext (some S) none c = stream_putc_entry ext d (some S) c) :=
  ⟨fun _ _ => rfl, fun _ => rfl, fun _ _ _ _ => rfl⟩

/-! ### Claim C6 — open failure -/

/-- Claim C6 (amended): when open is given a name string and mode string
naming a file that cannot be opened, it signals file-error whose payload
carries the errno-derived message and, as second element, the requested
name; the freshly allocated file object IS linked onto the live file chain
before the fopen attempt and remains there (unbound) after the failure. -/
theorem claim_C6 (n m msg : List Nat) (chain : List LispFile) :
    cmd_open (OpenArg.str n) (OpenArg.str m) OpenArg.nilArg false msg chain =
      (OpenRes.fileError msg n, ⟨none, false, false⟩ :: chain) :=
  rfl

/-- Counterexample to claim C6 as stated: opening a nonexistent path from
an empty live chain leaves the chain non-empty — the freshly allocated
file object was added to it — while the file-error payload does carry the
errno message and the requested name. -/
theorem claim_C6_cx :
    (cmd_open (OpenArg.str [120]) (OpenArg.str [114]) OpenArg.nilArg false
        [69] []).2 ≠ ([] : List LispFile) ∧
    (cmd_open (OpenArg.str [120]) (OpenArg.str [114]) OpenArg.nilArg false
        [69] []).1 = OpenRes.fileError [69] [120] := by
  constructor
  · decide
  · rfl

/-! ### Claim C7 — (Int . String) zero-byte EOF -/

/-- Claim C7: on an `(Int . String)` input stream, a zero byte at the
current offset (in particular the terminator at the logical length) makes
get-char return EOF with the cons left unmutated; any other byte is
returned with the offset incremented by exactly one. -/
theorem claim_C7 (ext : Ext) (off : Int) (s : List Nat) :
    (byteAt s off = 0 →
      stream_getc ext (LVal.strIn off s) = (-1, none, LVal.strIn off s)) ∧
    (byteAt s off ≠ 0 →
      stream_getc ext (LVal.strIn off s) =
        ((byteAt s off : Int), none, LVal.strIn (off + 1) s)) ∧
    byteAt s (s.length : Int) = 0 := by
  refine ⟨fun h => ?_, fun h => ?_, byteAt_len s⟩
  · simp [stream_getc, h]
  · simp [stream_getc, h]

/-- Witness for claim C7 at concrete inputs: a zero byte at offset 0 gives
EOF without mutation; the byte 97 is returned with the offset bumped. -/
theorem claim_C7_witness :
    stream_getc extDefault (LVal.strIn 0 [0]) = (-1, none, LVal.strIn 0 [0]) ∧
    stream_getc extDefault (LVal.strIn 0 [97]) = (97, none, LVal.strIn 1 [97]) := by
  constructor
  · exact (claim_C7 extDefault 0 [0]).1 (by decide)
  · have h := (claim_C7 extDefault 0 [97]).2.1 (by decide)
    simpa using h

/-! ### Claim C9 — unget-char never signals -/

/-- Claim C9: stream_ungetc contains no cmd_signal call on any path; on a
process or on a value of unrecognized type it simply returns failure with
the stream untouched — in contrast to stream_getc and stream_putc, whose
default (and process-input) branches signal invalid-stream. -/
theorem claim_C9 :
    (∀ ext v c, (stream_ungetc ext v c).2.1 = none) ∧
    (∀ ext c w, stream_ungetc ext (LVal.process w) c = (false, none, LVal.process w)) ∧
    (∀ ext c, stream_ungetc ext LVal.other c = (false, none, LVal.other)) ∧
    (∀ ext w, (stream_getc ext (LVal.process w)).2.1 =
      some Sig.invalidStreamProcessInput) ∧
    (∀ ext, (stream_getc ext LVal.other).2.1 = some Sig.invalidStream) ∧
    (∀ ext c, (stream_putc ext LVal.other c).2.1 = some Sig.invalidStream) := by
  refine ⟨fun ext v c => ?_, fun _ _ _ => rfl, fun _ _ => rfl,
    fun _ _ => rfl, fun _ => rfl, fun _ _ => rfl⟩
  cases v <;> first
    | rfl
    | (simp only [stream_ungetc]; split <;> rfl)

/-! ### Claim C10 — the write builtin's length handling -/

/-- Claim C10 (amended: the prefix clause requires a non-negative LENGTH;
the source treats LENGTH = -1 as "use the C string length of DATA").  A
LENGTH exceeding DATA's length signals an argument error at position 3
before anything is written; LENGTH equal to DATA's length hands the Lisp
string object itself to put-bytes, so a callable stream receives DATA by
reference; a non-negative LENGTH strictly smaller hands over only the raw
byte prefix, so a callable stream receives a freshly built string of
exactly LENGTH bytes. -/
theorem claim_C10 (ext : Ext) (strm : LVal) (s : List Nat) (l : Int) :
    ((s.length : Int) < l →
      cmd_write ext strm (WData.str s) (some l) = WriteOut.argError 3) ∧
    (l = (s.length : Int) →
      cmd_write ext strm (WData.str s) (some l) =
        WriteOut.putsRes (stream_puts ext strm s l true) ∧
      (stream_puts ext LVal.consLambda s l true).callArg = some (true, s)) ∧
    (0 ≤ l → l < (s.length : Int) →
      cmd_write ext strm (WData.str s) (some l) =
        WriteOut.putsRes (stream_puts ext strm s l false) ∧
      (stream_puts ext LVal.consLambda s l false).callArg =
        some (false, s.take l.toNat) ∧
      (s.take l.toNat).length = l.toNat) := by
  refine ⟨fun h => ?_, fun h => ⟨?_, ?_⟩, fun h₀ h₁ => ⟨?_, ?_, ?_⟩⟩
  · simp [cmd_write, h]
  · subst h; simp [cmd_write]
  · rfl
  · have hne : ¬ ((s.length : Int) < l) := by omega
    have hne₂ : ¬ (l = (s.length : Int)) := by omega
    simp [cmd_write, hne, hne₂]
  · have hm1 : ¬ (l = -1) := by omega
    simp [stream_puts, hm1]
  · have hle : l.toNat ≤ s.length := by omega
    simp [List.length_take, Nat.min_eq_left hle]

/-- Counterexample to claim C10 as stated: with LENGTH = -1 (an integer
strictly smaller than DATA's length 3), the callable stream receives a
fresh string of 3 bytes — the whole C string content of DATA — and not a
string of "exactly LENGTH bytes". -/
theorem claim_C10_cx :
    cmd_write extDefault LVal.consLambda (WData.str [97, 98, 99]) (some (-1)) =
      WriteOut.putsRes
        (stream_puts extDefault LVal.consLambda [97, 98, 99] (-1) false) ∧
    (stream_puts extDefault LVal.consLambda [97, 98, 99] (-1) false).callArg =
      some (false, [97, 98, 99]) ∧
    (([97, 98, 99] : List Nat).length : Int) ≠ (-1 : Int) := by
  refine ⟨rfl, rfl, by decide⟩

/-- Witness for claim C10 at concrete inputs: LENGTH 3 on a 2-byte string
errors at position 3; LENGTH 2 passes the string by reference; LENGTH 1
passes a fresh 1-byte prefix. -/
theorem claim_C10_witness :
    cmd_write extDefault LVal.consLambda (WData.str [97, 98]) (some 3) =
      WriteOut.argError 3 ∧
    (stream_puts extDefault LVal.consLambda [97, 98] 2 true).callArg =
      some (true, [97, 98]) ∧
    (stream_puts extDefault LVal.consLambda [97, 98] 1 false).callArg =
      some (false, [97]) := by
  refine ⟨?_, ?_, ?_⟩
  · exact (claim_C10 extDefault LVal.consLambda [97, 98] 3).1 (by decide)
  · exact ((claim_C10 extDefault LVal.consLambda [97, 98] 2).2.1 (by decide)).2
  · have h :=
      ((claim_C10 extDefault LVal.consLambda [97, 98] 1).2.2 (by decide)
        (by decide)).2.1
    simpa using h

/-! ### Claim C3 — string input stream exhaustion -/

theorem getcN_strIn (ext : Ext) (suf : List Nat) : ∀ pre : List Nat,
    (∀ b ∈ suf, b ≠ 0) →
    getcN ext (LVal.strIn (pre.length : Int) (pre ++ suf)) suf.length =
      (suf.map (fun b => (b : Int)),
        LVal.strIn (((pre ++ suf).length : Nat) : Int) (pre ++ suf)) := by
  induction suf with
  | nil => intro pre _; simp [getcN]
  | cons b rest ih =>
      intro pre hb
      have hb₀ : b ≠ 0 := hb b (by simp)
      have hread : byteAt (pre ++ b :: rest) (pre.length : Int) = b :=
        byteAt_app pre b rest
      have hstep :
          stream_getc ext (LVal.strIn (pre.length : Int) (pre ++ b :: rest)) =
            ((b : Int), none,
              LVal.strIn ((pre.length : Int) + 1) (pre ++ b :: rest)) := by
        simp [stream_getc, hread, hb₀]
      have e₁ : pre ++ b :: rest = (pre ++ [b]) ++ rest := by simp
      have key :
          getcN ext (LVal.strIn ((pre.length : Int) + 1) (pre ++ b :: rest))
              rest.length =
            (rest.map (fun x => (x : Int)),
              LVal.strIn (((pre ++ b :: rest).length : Nat) : Int)
                (pre ++ b :: rest)) := by
        have e₂ : ((pre.length : Int) + 1) = (((pre ++ [b]).length : Nat) : Int) := by
          simp
        rw [e₁, e₂]
        exact ih (pre ++ [b]) (fun x hx => hb x (List.mem_cons_of_mem _ hx))
      simp only [List.length_cons, getcN, hstep, key, List.map_cons]
      rfl

/-- Claim C3 (amended: S must contain no zero bytes, since the
`(Int . String)` reader treats a zero byte as EOF): reading `|S|` times
from `make-string-input-stream(S)` yields exactly the bytes of S in order;
the next read yields EOF and the stream's offset equals `|S|`. -/
theorem claim_C3 (ext : Ext) (S : List Nat) (h : ∀ b ∈ S, b ≠ 0) :
    getcN ext (mkStringInputStream S none) S.length =
      (S.map (fun b => (b : Int)), LVal.strIn ((S.length : Nat) : Int) S) ∧
    stream_getc ext (LVal.strIn ((S.length : Nat) : Int) S) =
      (-1, none, LVal.strIn ((S.length : Nat) : Int) S) := by
  constructor
  · have h₀ := getcN_strIn ext S [] h
    simpa [mkStringInputStream] using h₀
  · simp [stream_getc, byteAt_len]

/-- Counterexample to claim C3 as stated: for S the one-byte string
containing a zero byte, the first (and only) read yields EOF, not the byte
0, and leaves the offset at 0 rather than `|S| = 1`. -/
theorem claim_C3_cx :
    getcN extDefault (mkStringInputStream [0] none) 1 =
      ([-1], LVal.strIn 0 [0]) ∧
    ((-1 : Int) ≠ ((0 : Nat) : Int)) ∧
    LVal.strIn 0 [0] ≠ LVal.strIn 1 [0] := by
  refine ⟨rfl, by decide, by decide⟩

/-- Witness for claim C3 at the concrete string "ab": both bytes are
delivered in order, then EOF with the offset stuck at 2. -/
theorem claim_C3_witness :
    getcN extDefault (mkStringInputStream [97, 98] none) 2 =
      ([97, 98], LVal.strIn 2 [97, 98]) ∧
    stream_getc extDefault (LVal.strIn 2 [97, 98]) =
      (-1, none, LVal.strIn 2 [97, 98]) := by
  have h := claim_C3 extDefault [97, 98] (by decide)
  simpa using h

/-! ### Claim C5 — unget inverts read -/

theorem pos_getc_unget (tx : TX) (p : Pos) (n : Nat) (q : Pos)
    (h : pos_getc tx p = (some n, q)) :
    pos_getc tx (pos_ungetc tx q) = (some n, q) := by
  unfold pos_getc at h
  by_cases hrow : p.row < tx.logicalEnd
  · rw [if_pos hrow] at h
    by_cases hcol : (lineAt tx p.row).text.length ≤ p.col
    · rw [if_pos hcol] at h
      by_cases hend : p.row + 1 = tx.logicalEnd
      · rw [if_pos hend] at h
        exact absurd (congrArg Prod.fst h) (by simp)
      · rw [if_neg hend] at h
        have hn : n = 10 := by
          have := congrArg Prod.fst h
          simpa using this.symm
        have hq : q = ⟨p.row + 1, 0⟩ := by
          have := congrArg Prod.snd h
          simpa using this.symm
        subst hn; subst hq
        have hu : pos_ungetc tx ⟨p.row + 1, 0⟩ =
            ⟨p.row, (lineAt tx p.row).text.length⟩ := by
          simp [pos_ungetc]
        rw [hu]
        unfold pos_getc
        rw [if_pos hrow, if_pos (Nat.le_refl _), if_neg hend]
    · rw [if_neg hcol] at h
      have hn : n = (lineAt tx p.row).text.getD p.col 0 := by
        have := congrArg Prod.fst h
        simpa using this.symm
      have hq : q = ⟨p.row, p.col + 1⟩ := by
        have := congrArg Prod.snd h
        simpa using this.symm
      subst hn; subst hq
      have hu : pos_ungetc tx ⟨p.row, p.col + 1⟩ = ⟨p.row, p.col⟩ := by
        simp [pos_ungetc]
      rw [hu]
      unfold pos_getc
      rw [if_pos hrow, if_neg hcol]
  · rw [if_neg hrow] at h
    exact absurd (congrArg Prod.fst h) (by simp)

theorem pos_getc_setCursor (tx : TX) (p q : Pos) :
    pos_getc (setCursor tx p) q = pos_getc tx q := rfl

theorem pos_ungetc_setCursor (tx : TX) (p q : Pos) :
    pos_ungetc (setCursor tx p) q = pos_ungetc tx q := rfl

/-- Claim C5 (amended): on every variant supporting unget, after a
successful read of byte `c`, unget-char(c) succeeds (signalling nothing)
and the following get-char returns `c` again, leaving the stream in the
state it had after the *initial* read — so unget followed by get is the
identity; the triple as a whole consumes one byte, it does not restore the
state from before the initial read. -/
theorem claim_C5 (ext : Ext) (v v₁ : LVal) (c : Int)
    (hs : supportsUnget v = true)
    (hg : stream_getc ext v = (c, none, v₁)) (hc : 0 ≤ c) :
    (stream_ungetc ext v₁ c).1 = true ∧
    (stream_ungetc ext v₁ c).2.1 = none ∧
    stream_getc ext (stream_ungetc ext v₁ c).2.2 = (c, none, v₁) := by
  cases v with
  | strIn off s =>
      by_cases h0 : byteAt s off = 0
      · have hstep : stream_getc ext (LVal.strIn off s) =
            (-1, none, LVal.strIn off s) := by
          simp [stream_getc, h0]
        rw [hstep] at hg
        have h₁ : (-1 : Int) = c := congrArg Prod.fst hg
        omega
      · have hstep : stream_getc ext (LVal.strIn off s) =
            ((byteAt s off : Int), none, LVal.strIn (off + 1) s) := by
          simp [stream_getc, h0]
        rw [hstep] at hg
        have hv₁ : v₁ = LVal.strIn (off + 1) s := by
          have h₂ := congrArg (fun r => r.2.2) hg
          simpa using h₂.symm
        have hc₁ : c = (byteAt s off : Int) := by
          have h₂ := congrArg Prod.fst hg
          simpa using h₂.symm
        subst hv₁
        subst hc₁
        have hoff : off + 1 - 1 = off := by ring
        refine ⟨rfl, rfl, ?_⟩
        simp [stream_ungetc, hoff, stream_getc, h0]
  | mark res tx p =>
      cases res with
      | false =>
          have h₂ := congrArg (fun r => r.2.1) hg
          simp [stream_getc] at h₂
      | true =>
          rcases hpg : pos_getc tx p with ⟨o, p₂⟩
          cases o with
          | none =>
              have h₁ := congrArg Prod.fst hg
              simp [stream_getc, hpg, optToInt] at h₁
              omega
          | some n =>
              have hstep : stream_getc ext (LVal.mark true tx p) =
                  ((n : Int), none, LVal.mark true tx p₂) := by
                simp [stream_getc, hpg, optToInt]
              rw [hstep] at hg
              have hv₁ : v₁ = LVal.mark true tx p₂ := by
                have h₂ := congrArg (fun r => r.2.2) hg
                simpa using h₂.symm
              have hc₁ : c = (n : Int) := by
                have h₂ := congrArg Prod.fst hg
                simpa using h₂.symm
              subst hv₁
              subst hc₁
              refine ⟨rfl, rfl, ?_⟩
              have hrt := pos_getc_unget tx p n p₂ hpg
              simp [stream_ungetc, stream_getc, hrt, optToInt]
  | buffer tx =>
      rcases hpg : pos_getc tx tx.cursor with ⟨o, p₂⟩
      cases o with
      | none =>
          have h₁ := congrArg Prod.fst hg
          simp [stream_getc, hpg, optToInt] at h₁
          omega
      | some n =>
          have hstep : stream_getc ext (LVal.buffer tx) =
              ((n : Int), none, LVal.buffer (setCursor tx p₂)) := by
            simp [stream_getc, hpg, optToInt]
          rw [hstep] at hg
          have hv₁ : v₁ = LVal.buffer (setCursor tx p₂) := by
            have h₂ := congrArg (fun r => r.2.2) hg
            simpa using h₂.symm
          have hc₁ : c = (n : Int) := by
            have h₂ := congrArg Prod.fst hg
            simpa using h₂.symm
          subst hv₁
          subst hc₁
          refine ⟨rfl, rfl, ?_⟩
          have hrt := pos_getc_unget tx tx.cursor n p₂ hpg
          have hun : (stream_ungetc ext (LVal.buffer (setCursor tx p₂))
                (n : Int)).2.2 =
              LVal.buffer (setCursor tx (pos_ungetc tx p₂)) := rfl
          have hget : stream_getc ext
                (LVal.buffer (setCursor tx (pos_ungetc tx p₂))) =
              (optToInt (pos_getc tx (pos_ungetc tx p₂)).1, none,
                LVal.buffer (setCursor tx (pos_getc tx (pos_ungetc tx p₂)).2)) :=
            rfl
          rw [hun, hget, hrt]
          rfl
  | bufPos tx p =>
      rcases hpg : pos_getc tx p with ⟨o, p₂⟩
      cases o with
      | none =>
          have h₁ := congrArg Prod.fst hg
          simp [stream_getc, hpg, optToInt] at h₁
          omega
      | some n =>
          have hstep : stream_getc ext (LVal.bufPos tx p) =
              ((n : Int), none, LVal.bufPos tx p₂) := by
            simp [stream_getc, hpg, optToInt]
          rw [hstep] at hg
          have hv₁ : v₁ = LVal.bufPos tx p₂ := by
            have h₂ := congrArg (fun r => r.2.2) hg
            simpa using h₂.symm
          have hc₁ : c = (n : Int) := by
            have h₂ := congrArg Prod.fst hg
            simpa using h₂.symm
          subst hv₁
          subst hc₁
          refine ⟨rfl, rfl, ?_⟩
          have hrt := pos_getc_unget tx p n p₂ hpg
          simp [stream_ungetc, stream_getc, hrt, optToInt]
  | file bound toRead written => simp [supportsUnget] at hs
  | outStr acc => simp [supportsUnget] at hs
  | bufT tx => simp [supportsUnget] at hs
  | consLambda => simp [supportsUnget] at hs
  | consOther => simp [supportsUnget] at hs
  | symT => simp [supportsUnget] at hs
  | symCallable => simp [supportsUnget] at hs
  | process w => simp [supportsUnget] at hs
  | other => simp [supportsUnget] at hs

/-- Counterexample to claim C5 as stated: on the stream `(0 . "a")` the
triple read/unget/read returns 97 twice, but the state after the triple is
`(1 . "a")`, not the pre-read state `(0 . "a")` — the triple consumes one
byte, so the stream state is *not* identical to its state before the
initial read. -/
theorem claim_C5_cx :
    (stream_getc extDefault (LVal.strIn 0 [97])).1 = 97 ∧
    (stream_getc extDefault
        ((stream_ungetc extDefault
            (stream_getc extDefault (LVal.strIn 0 [97])).2.2 97).2.2)).2.2 =
      LVal.strIn 1 [97] ∧
    LVal.strIn 1 [97] ≠ LVal.strIn 0 [97] := by
  refine ⟨rfl, by decide, by decide⟩

/-- Witness for claim C5 at the concrete stream `(0 . "a")`. -/
theorem claim_C5_witness :
    (stream_ungetc extDefault (LVal.strIn 1 [97]) 97).1 = true ∧
    (stream_ungetc extDefault (LVal.strIn 1 [97]) 97).2.1 = none ∧
    stream_getc extDefault
        (stream_ungetc extDefault (LVal.strIn 1 [97]) 97).2.2 =
      (97, none, LVal.strIn 1 [97]) := by
  have h := claim_C5 extDefault (LVal.strIn 0 [97]) (LVal.strIn 1 [97]) 97
    (by decide) (by decide) (by decide)
  simpa using h

/-! ### Claim C8 — the escape reader -/

theorem readEscHexLoop_run (ds : List Int) : ∀ (rest : List Int) (c : Nat),
    (∀ d ∈ ds, isxdigitI d = true) →
    (∀ h ∈ rest.head?, isxdigitI h = false) →
    readEscHexLoop c (ds ++ rest) =
      (ds.foldl (fun x d => (x * 16 + hexVal d) % 256) c,
        (srcGetc rest).1, (srcGetc rest).2) := by
  induction ds with
  | nil =>
      intro rest c _ hrest
      cases rest with
      | nil => rfl
      | cons h t =>
          have hh : isxdigitI h = false := hrest h rfl
          simp [readEscHexLoop, hh, srcGetc]
  | cons d ds ih =>
      intro rest c hds hrest
      have hd : isxdigitI d = true := hds d (by simp)
      simp only [List.cons_append, readEscHexLoop, hd, if_true, List.foldl_cons]
      exact ih rest ((c * 16 + hexVal d) % 256)
        (fun x hx => hds x (List.mem_cons_of_mem _ hx)) hrest

/-- Claim C8: read-escape maps n, r, f, t, v, a to their C control values
with one further lookahead read; `^X` reads one more character and yields
`upper(X) XOR 0x40` followed by a lookahead read; a first character in
0..7 consumes up to three octal digits in total, a non-octal character
ending the run early becoming the lookahead, while a full three-digit run
is followed by one unconditional lookahead read; `x` consumes an unbounded
case-insensitive run of hex digits (accumulated modulo 256, the u_char),
the first non-hex character becoming the lookahead; any other first
character is returned as-is (as the u_char cast) after one lookahead
read. -/
theorem claim_C8 :
    (∀ src, stream_read_esc src 110 = (10, (srcGetc src).1, (srcGetc src).2)) ∧
    (∀ src, stream_read_esc src 114 = (13, (srcGetc src).1, (srcGetc src).2)) ∧
    (∀ src, stream_read_esc src 102 = (12, (srcGetc src).1, (srcGetc src).2)) ∧
    (∀ src, stream_read_esc src 116 = (9, (srcGetc src).1, (srcGetc src).2)) ∧
    (∀ src, stream_read_esc src 118 = (11, (srcGetc src).1, (srcGetc src).2)) ∧
    (∀ src, stream_read_esc src 97 = (7, (srcGetc src).1, (srcGetc src).2)) ∧
    (∀ x rest, 0 ≤ x →
      stream_read_esc (x :: rest) 94 =
        (Nat.xor (toupperI x).toNat 64 % 256,
          (srcGetc rest).1, (srcGetc rest).2)) ∧
    (∀ fc d₁ rest, 48 ≤ fc → fc ≤ 55 → ¬ (48 ≤ d₁ ∧ d₁ ≤ 55) →
      stream_read_esc (d₁ :: rest) fc = ((fc - 48).toNat, d₁, rest)) ∧
    (∀ fc d₁ d₂ rest, 48 ≤ fc → fc ≤ 55 → (48 ≤ d₁ ∧ d₁ ≤ 55) →
      ¬ (48 ≤ d₂ ∧ d₂ ≤ 55) →
      stream_read_esc (d₁ :: d₂ :: rest) fc =
        (((fc - 48).toNat * 8 + (d₁ - 48).toNat) % 256, d₂, rest)) ∧
    (∀ fc d₁ d₂ rest, 48 ≤ fc → fc ≤ 55 → (48 ≤ d₁ ∧ d₁ ≤ 55) →
      (48 ≤ d₂ ∧ d₂ ≤ 55) →
      stream_read_esc (d₁ :: d₂ :: rest) fc =
        ((((fc - 48).toNat * 8 + (d₁ - 48).toNat) % 256 * 8
            + (d₂ - 48).toNat) % 256,
          (srcGetc rest).1, (srcGetc rest).2)) ∧
    (∀ ds rest, (∀ d ∈ ds, isxdigitI d = true) →
      (∀ h ∈ rest.head?, isxdigitI h = false) →
      stream_read_esc (ds ++ rest) 120 =
        (ds.foldl (fun x d => (x * 16 + hexVal d) % 256) 0,
          (srcGetc rest).1, (srcGetc rest).2)) ∧
    (∀ fc src, fc ∉ ([110, 114, 102, 116, 118, 97, 94, 120] : List Int) →
      ¬ (48 ≤ fc ∧ fc ≤ 55) →
      stream_read_esc src fc = (toByte fc, (srcGetc src).1, (srcGetc src).2)) := by
  refine ⟨fun src => rfl, fun src => rfl, fun src => rfl, fun src => rfl,
    fun src => rfl, fun src => rfl, ?_, ?_, ?_, ?_, ?_, ?_⟩
  · intro x rest hx
    have hnl : ¬ x < 0 := by omega
    simp [stream_read_esc, srcGetc, escFinish, ctrlByte, hnl]
  · intro fc d₁ rest h48 h55 hd
    have e₁ : ¬ fc = 110 := by omega
    have e₂ : ¬ fc = 114 := by omega
    have e₃ : ¬ fc = 102 := by omega
    have e₄ : ¬ fc = 116 := by omega
    have e₅ : ¬ fc = 118 := by omega
    have e₆ : ¬ fc = 97 := by omega
    have e₇ : ¬ fc = 94 := by omega
    simp [stream_read_esc, e₁, e₂, e₃, e₄, e₅, e₆, e₇, h48, h55, srcGetc, hd]
  · intro fc d₁ d₂ rest h48 h55 hd₁ hd₂
    have e₁ : ¬ fc = 110 := by omega
    have e₂ : ¬ fc = 114 := by omega
    have e₃ : ¬ fc = 102 := by omega
    have e₄ : ¬ fc = 116 := by omega
    have e₅ : ¬ fc = 118 := by omega
    have e₆ : ¬ fc = 97 := by omega
    have e₇ : ¬ fc = 94 := by omega
    simp [stream_read_esc, e₁, e₂, e₃, e₄, e₅, e₆, e₇, h48, h55, srcGetc,
      hd₁.1, hd₁.2, hd₂]
  · intro fc d₁ d₂ rest h48 h55 hd₁ hd₂
    have e₁ : ¬ fc = 110 := by omega
    have e₂ : ¬ fc = 114 := by omega
    have e₃ : ¬ fc = 102 := by omega
    have e₄ : ¬ fc = 116 := by omega
    have e₅ : ¬ fc = 118 := by omega
    have e₆ : ¬ fc = 97 := by omega
    have e₇ : ¬ fc = 94 := by omega
    simp [stream_read_esc, e₁, e₂, e₃, e₄, e₅, e₆, e₇, h48, h55, srcGetc,
      hd₁.1, hd₁.2, hd₂.1, hd₂.2, escFinish]
  · intro ds rest hds hrest
    have h : stream_read_esc (ds ++ rest) 120 = readEscHexLoop 0 (ds ++ rest) := rfl
    rw [h, readEscHexLoop_run ds rest 0 hds hrest]
  · intro fc src hmem hoct
    simp only [List.mem_cons, List.mem_singleton, not_or] at hmem
    obtain ⟨e₁, e₂, e₃, e₄, e₅, e₆, e₇, e₈⟩ := hmem
    simp [stream_read_esc, e₁, e₂, e₃, e₄, e₅, e₆, e₇, e₈, hoct, escFinish]

/-- Witness for claim C8 at the spec's concrete scenario: `\n` gives 0x0A,
`\017` gives 15 with lookahead `z`, `\x41` gives 65 with lookahead `z`,
`\^a` gives 1 with the next stream byte as lookahead. -/
theorem claim_C8_witness :
    stream_read_esc [122] 110 = (10, 122, []) ∧
    stream_read_esc [49, 55, 122] 48 = (15, 122, []) ∧
    stream_read_esc [52, 49, 122] 120 = (65, 122, []) ∧
    stream_read_esc [97, 122] 94 = (1, 122, []) := by
  refine ⟨?_, ?_, ?_, ?_⟩
  · have h := claim_C8.1 [122]
    simpa using h
  · have h := claim_C8.2.2.2.2.2.2.2.2.2.1 48 49 55 [122] (by decide) (by decide)
      (by decide) (by decide)
    simpa using h
  · have h := claim_C8.2.2.2.2.2.2.2.2.2.2.1 [52, 49] [122]
      (by decide) (by decide)
    simpa [isxdigitI, hexVal, toupperI] using h
  · have h := claim_C8.2.2.2.2.2.2.1 97 [122] (by decide)
    simpa [toupperI] using h

/-! ### Claim C2 — output accumulator round trip and capacity -/

theorem toByte_coe (b : Nat) (h : b < 256) : toByte (b : Int) = b := by
  have h₁ : ((b : Int) % 256) = (b : Int) := by omega
  simp [toByte, h₁]

theorem outPutc_first (c : Nat) (hc : c < 256) :
    GoodAcc [c] (outPutc ⟨[0], 0, 0⟩ (c : Int)) := by
  have hval : outPutc ⟨[0], 0, 0⟩ (c : Int) =
      ⟨[c] ++ 0 :: List.replicate 31 0, 1, 32⟩ := by
    simp only [outPutc, toByte_coe c hc]
    norm_num
    rfl
  rw [hval]
  refine ⟨rfl, ⟨List.replicate 31 0, rfl, by simp⟩, ⟨5, rfl, le_refl 5⟩,
    by norm_num, Or.inl rfl⟩

theorem outPutc_good (P : List Nat) (a : OutAcc) (c : Nat) (hc : c < 256)
    (h : GoodAcc P a) : GoodAcc (P ++ [c]) (outPutc a (c : Int)) := by
  obtain ⟨hlen, ⟨r, har, hral⟩, ⟨k, hk, hk5⟩, hlt, hmin⟩ := h
  have hcap32 : 32 ≤ a.cap := by
    rw [hk]
    calc (32 : Nat) = 2 ^ 5 := by norm_num
    _ ≤ 2 ^ k := Nat.pow_le_pow_right (by norm_num) hk5
  by_cases hg : a.cap ≤ a.slen + 1
  · -- growth step: the capacity was exactly len + 1
    have hcap : a.cap = P.length + 1 := by omega
    have h16 : ¬ (a.cap < 16) := by omega
    have htake : a.alloc.take a.slen = P := by
      rw [har, hlen]
      exact List.take_left P (0 :: r)
    have hval : outPutc a (c : Int) =
        ⟨(P ++ [c]) ++ 0 :: List.replicate (P.length + 1) 0,
          P.length + 1, a.cap * 2⟩ := by
      simp only [outPutc]
      rw [if_pos hg, if_neg h16, htake, hlen]
      have hrep : a.cap * 2 + 1 - P.length = P.length + 3 := by omega
      rw [hrep]
      have hrep₂ : List.replicate (P.length + 3) (0 : Nat) =
          0 :: 0 :: List.replicate (P.length + 1) 0 := by
        rw [show P.length + 3 = (P.length + 1) + 1 + 1 by omega]
        rw [List.replicate_succ, List.replicate_succ]
      rw [hrep₂,
        set_app P 0 (0 :: List.replicate (P.length + 1) 0) (toByte (c : Int))]
      rw [toByte_coe c hc]
      have hre : P ++ c :: 0 :: List.replicate (P.length + 1) 0 =
          (P ++ [c]) ++ 0 :: List.replicate (P.length + 1) 0 := by
        simp
      rw [hre]
      have hlen₂ : P.length + 1 = (P ++ [c]).length := by simp
      rw [hlen₂, set_app (P ++ [c]) 0 (List.replicate ((P ++ [c]).length) 0) 0]
    rw [hval]
    refine ⟨by simp, ⟨List.replicate (P.length + 1) 0, rfl, by simp; omega⟩,
      ⟨k + 1, by rw [hk]; ring, by omega⟩, by simp; omega,
      Or.inr (by simp; omega)⟩
  · -- no growth: capacity strictly exceeds len + 1
    have hcap : P.length + 1 < a.cap := by omega
    have hrlen : 2 ≤ r.length := by omega
    obtain ⟨y, rs, hry⟩ : ∃ y rs, r = y :: rs := by
      cases r with
      | nil => simp at hrlen
      | cons y rs => exact ⟨y, rs, rfl⟩
    have hval : outPutc a (c : Int) =
        ⟨(P ++ [c]) ++ 0 :: rs, P.length + 1, a.cap⟩ := by
      simp only [outPutc]
      rw [if_neg hg, hlen, har, hry]
      rw [set_app P 0 (y :: rs) (toByte (c : Int)), toByte_coe c hc]
      have hre : P ++ c :: y :: rs = (P ++ [c]) ++ y :: rs := by simp
      rw [hre]
      have hlen₂ : P.length + 1 = (P ++ [c]).length := by simp
      rw [hlen₂, set_app (P ++ [c]) y rs 0]
    rw [hval]
    subst hry
    refine ⟨by simp, ⟨rs, rfl, by simp at hral ⊢; omega⟩,
      ⟨k, hk, hk5⟩, by simp; omega, ?_⟩
    rcases hmin with h32 | hle
    · exact Or.inl h32
    · exact Or.inr (by simp; omega)

theorem putcFold_good (B : List Nat) : ∀ (P : List Nat) (a : OutAcc),
    (∀ b ∈ B, b < 256) → GoodAcc P a →
    GoodAcc (P ++ B) (B.foldl (fun x b => outPutc x ((b : Nat) : Int)) a) := by
  induction B with
  | nil =>
      intro P a _ h
      rw [List.append_nil]
      exact h
  | cons b B ih =>
      intro P a hb h
      have h₁ := outPutc_good P a b (hb b (by simp)) h
      have h₂ := ih (P ++ [b]) (outPutc a ((b : Nat) : Int))
        (fun x hx => hb x (List.mem_cons_of_mem _ hx)) h₁
      have e : (P ++ [b]) ++ B = P ++ b :: B := by simp
      rw [e] at h₂
      exact h₂

theorem putcAll_outStr (ext : Ext) (B : List Nat) : ∀ a : OutAcc,
    putcAll ext (LVal.outStr a) B =
      LVal.outStr (B.foldl (fun x b => outPutc x ((b : Nat) : Int)) a) := by
  induction B with
  | nil => intro a; rfl
  | cons b B ih =>
      intro a
      have h : putcAll ext (LVal.outStr a) (b :: B) =
          putcAll ext (LVal.outStr (outPutc a ((b : Nat) : Int))) B := rfl
      rw [h, ih]
      rfl

theorem getD_app (P : List Nat) (x : Nat) (r : List Nat) (d : Nat) :
    (P ++ x :: r).getD P.length d = x := by
  simp only [List.getD]
  rw [List.get?_eq_getElem?, List.getElem?_append_right (Nat.le_refl _)]
  simp

/-- Claim C2 (amended: B nonempty — the fresh accumulator still has the
capacity 0 it was created with until the first byte is written): starting
from the fresh `("" . 0)` accumulator, writing a nonempty byte sequence B
one byte at a time with put-char leaves a payload whose first
logical-length bytes are exactly B, with the trailing zero maintained, and
the recorded capacity is the smallest value of the form `max(32, 2^k)`
strictly greater than `|B|`. -/
theorem claim_C2 (ext : Ext) (B : List Nat) (hne : B ≠ [])
    (hb : ∀ b ∈ B, b < 256) :
    ∃ a : OutAcc,
      putcAll ext mkStringOutputStream B = LVal.outStr a ∧
      a.slen = B.length ∧
      a.alloc.take B.length = B ∧
      a.alloc.getD B.length 99 = 0 ∧
      capForm a.cap ∧
      B.length < a.cap ∧
      (∀ m, capForm m → B.length < m → a.cap ≤ m) := by
  obtain ⟨b, B₂, rfl⟩ : ∃ b B₂, B = b :: B₂ := by
    cases B with
    | nil => exact absurd rfl hne
    | cons b B₂ => exact ⟨b, B₂, rfl⟩
  have h₁ := outPutc_first b (hb b (by simp))
  have h₂ := putcFold_good B₂ [b] (outPutc ⟨[0], 0, 0⟩ ((b : Nat) : Int))
    (fun x hx => hb x (List.mem_cons_of_mem _ hx)) h₁
  have e : ([b] : List Nat) ++ B₂ = b :: B₂ := by simp
  rw [e] at h₂
  refine ⟨B₂.foldl (fun x z => outPutc x ((z : Nat) : Int))
    (outPutc ⟨[0], 0, 0⟩ ((b : Nat) : Int)), ?_, ?_⟩
  · rw [show mkStringOutputStream = LVal.outStr ⟨[0], 0, 0⟩ from rfl,
      putcAll_outStr ext (b :: B₂) ⟨[0], 0, 0⟩]
    rfl
  · obtain ⟨hlen, ⟨r, har, hral⟩, ⟨k, hk, hk5⟩, hlt, hmin⟩ := h₂
    have hcap32 : 32 ≤ 2 ^ k := by
      calc (32 : Nat) = 2 ^ 5 := by norm_num
      _ ≤ 2 ^ k := Nat.pow_le_pow_right (by norm_num) hk5
    refine ⟨hlen, ?_, ?_, ⟨k, by rw [hk, Nat.max_eq_right hcap32]⟩, hlt, ?_⟩
    · rw [har]
      exact List.take_left (b :: B₂) (0 :: r)
    · rw [har]
      exact getD_app (b :: B₂) 0 r 99
    · intro m hm hgt
      obtain ⟨j, hmj⟩ := hm
      rcases hmin with h32 | hle
      · rw [h32, hmj]
        exact le_max_left _ _
      · by_cases hj : 2 ^ j ≤ 32
        · have hm32 : m = 32 := by rw [hmj]; exact Nat.max_eq_left hj
          have hk6 : k < 6 := by
            by_contra hk6
            push_neg at hk6
            have h64 : (64 : Nat) ≤ 2 ^ k := by
              calc (64 : Nat) = 2 ^ 6 := by norm_num
              _ ≤ 2 ^ k := Nat.pow_le_pow_right (by norm_num) hk6
            omega
          have hk5e : k = 5 := by omega
          rw [hm32, hk, hk5e]
          norm_num
        · push_neg at hj
          have hmj₂ : m = 2 ^ j := by
            rw [hmj]
            exact Nat.max_eq_right (le_of_lt hj)
          have hlt₂ : 2 ^ k < 2 ^ (j + 1) := by
            have hstep : 2 ^ k ≤ 2 * (b :: B₂).length := hk ▸ hle
            calc 2 ^ k ≤ 2 * (b :: B₂).length := hstep
            _ < 2 * m := by omega
            _ = 2 ^ (j + 1) := by rw [hmj₂]; ring
          have hkj : k ≤ j := by
            have hlt₃ := (Nat.pow_lt_pow_iff_right (by norm_num : 1 < 2)).1 hlt₂
            omega
          rw [hk, hmj₂]
          exact Nat.pow_le_pow_right (by norm_num) hkj

/-- Counterexample to claim C2 as stated: for the empty byte sequence, the
accumulator still has the recorded capacity 0 it was created with, which
is not of the form `max(32, 2^k)` at all (every such value is at least
32), so the capacity clause fails for `B = []`. -/
theorem claim_C2_cx :
    putcAll extDefault mkStringOutputStream [] = mkStringOutputStream ∧
    (∀ a : OutAcc,
      putcAll extDefault mkStringOutputStream [] = LVal.outStr a →
      ¬ capForm a.cap) := by
  refine ⟨rfl, ?_⟩
  intro a ha hcf
  have ha₂ : LVal.outStr ⟨[0], 0, 0⟩ = LVal.outStr a := ha
  have hacc := LVal.outStr.inj ha₂
  obtain ⟨k, hkk⟩ := hcf
  rw [hacc.symm] at hkk
  have h32 : (32 : Nat) ≤ max 32 (2 ^ k) := le_max_left _ _
  simp at hkk
  omega

/-- Witness for claim C2 at the one-byte sequence `[97]`: the accumulator
holds `a` with a trailing zero and capacity 32 — the smallest
`max(32, 2^k)` exceeding 1. -/
theorem claim_C2_witness :
    ∃ a : OutAcc,
      putcAll extDefault mkStringOutputStream [97] = LVal.outStr a ∧
      a.slen = 1 ∧
      a.alloc.take 1 = [97] ∧
      a.alloc.getD 1 99 = 0 ∧
      capForm a.cap ∧
      1 < a.cap ∧
      (∀ m, capForm m → 1 < m → a.cap ≤ m) := by
  have h := claim_C2 extDefault [97] (by decide) (by decide)
  simpa using h

/-! ### Claim C1 — copy-stream drops a byte at every buffer boundary -/

set_option maxRecDepth 100000 in
set_option maxHeartbeats 4000000 in
/-- Claim C1 fails on the code: copying a source that delivers 512 bytes
of 97 into a fresh string output stream reports 512 bytes copied, but the
destination accumulated only 511 bytes — when the 512-byte intermediate
buffer becomes full, `cmd_copy_stream` flushes it and resets the pointer
without storing the byte it has just read, so every 512th byte of the
source is silently dropped while still being counted.  The destination's
logical content (511 bytes) is not the source sequence (512 bytes). -/
theorem claim_C1 :
    cmd_copy_stream extDefault (List.replicate 512 97) mkStringOutputStream =
      (some 512,
        LVal.outStr ⟨List.replicate 511 97 ++ [0, 0], 511, 512⟩) ∧
    (List.replicate 511 97 ++ [0, 0] : List Nat).take 511 =
      List.replicate 511 97 ∧
    List.replicate 511 (97 : Nat) ≠ List.replicate 512 97 := by
  refine ⟨by decide, ?_, by decide⟩
  have h := List.take_left (List.replicate 511 (97 : Nat)) [0, 0]
  rw [List.length_replicate] at h
  exact h
